import Mathlib

/-!
Verification development for the no-API-parser repository.

This file gives a shallow embedding, in Lean, of the behaviour of the
channel parsing engine in `parser_modules/channel_parser.py` (the
scroll-collect loop `_get_posts`, the per-element extractor
`_extract_post_data`, the date filter `_is_date_in_range`, and the channel
metadata reader `_get_channel_info`) and of the export routines in
`parser_modules/data_exporter.py` (`_flatten_post` and the CSV writer model
of `_export_csv`), together with theorems about these definitions.

Browser interaction is modelled by data: each message element carries the
values that the page queries in the source would return for it (resolved
identifier, date texts, timestamp attributes, content, view counts, media
descriptors, and whether the whole-record extraction raises), and each
round of the scroll loop carries the element list the page renders, the
at-top test result, and whether the batch of scroll steps moved the scroll
position.  Python datetimes are modelled as civil dates plus seconds; the
`datetime.fromtimestamp` conversion is modelled as the standard civil
calendar conversion at UTC with seconds truncated.
-/

/-- Calendar date, the value of a Python `datetime.date`. -/
structure Date where
  year : Int
  month : Int
  day : Int
deriving DecidableEq

/-- Strict comparison of dates, as Python compares `date` objects. -/
def dateLtb (a b : Date) : Bool :=
  if a.year = b.year then
    if a.month = b.month then decide (a.day < b.day)
    else decide (a.month < b.month)
  else decide (a.year < b.year)

/-- A Python `datetime`: a civil date plus seconds past midnight. -/
structure DateTime where
  date : Date
  secs : Nat
deriving DecidableEq

/-- Strict comparison of datetimes (lexicographic date then time). -/
def dtLtb (a b : DateTime) : Bool :=
  if a.date = b.date then decide (a.secs < b.secs) else dateLtb a.date b.date

/-- Civil date from a count of days since the Unix epoch (standard
calendar algorithm, matching `datetime.fromtimestamp` at UTC). -/
def civilFromDays (z0 : Int) : Date :=
  let z := z0 + 719468
  let era := z.fdiv 146097
  let doe := z - era * 146097
  let yoe := (doe - doe.fdiv 1460 + doe.fdiv 36524 - doe.fdiv 146096).fdiv 365
  let y := yoe + era * 400
  let doy := doe - (365 * yoe + yoe.fdiv 4 - yoe.fdiv 100)
  let mp := (5 * doy + 2).fdiv 153
  let d := doy - (153 * mp + 2).fdiv 5 + 1
  let m := mp + (if mp < 10 then 3 else -9)
  { year := y + (if m ≤ 2 then 1 else 0), month := m, day := d }

/-- Days since the Unix epoch of a civil date (inverse of `civilFromDays`). -/
def daysFromCivil (dt : Date) : Int :=
  let y := dt.year - (if dt.month ≤ 2 then 1 else 0)
  let era := y.fdiv 400
  let yoe := y - era * 400
  let mp := dt.month + (if 2 < dt.month then -3 else 9)
  let doy := (153 * mp + 2).fdiv 5 + dt.day - 1
  let doe := yoe * 365 + yoe.fdiv 4 - yoe.fdiv 100 + doy
  era * 146097 + doe - 719468

/-- Model of `datetime.fromtimestamp(ms / 1000)`: the timestamp is in
milliseconds, seconds are truncated towards minus infinity. -/
def tsToDateTime (ms : Int) : DateTime :=
  let secs := ms.fdiv 1000
  let days := secs.fdiv 86400
  let sod := secs - days * 86400
  { date := civilFromDays days, secs := sod.toNat }

/-- Model of `dt - timedelta(days=n)` (the time of day is preserved). -/
def DateTime.subDays (dt : DateTime) (n : Int) : DateTime :=
  { dt with date := civilFromDays (daysFromCivil dt.date - n) }

/-- Gregorian leap year test. -/
def isLeap (y : Int) : Bool :=
  if y % 4 ≠ 0 then false
  else if y % 100 ≠ 0 then true
  else decide (y % 400 = 0)

/-- Number of days in a month, used by the `datetime` constructor model. -/
def daysInMonth (y m : Int) : Int :=
  if m = 2 then (if isLeap y then 29 else 28)
  else if m = 4 ∨ m = 6 ∨ m = 9 ∨ m = 11 then 30
  else 31

/-- Whether `datetime(y, m, d)` would construct without a `ValueError`. -/
def validDate (y m d : Int) : Bool :=
  decide (1 ≤ m) && decide (m ≤ 12) && decide (1 ≤ d) && decide (d ≤ daysInMonth y m)

/-- Zero-padded two-digit rendering of a small number. -/
def pad2 (n : Int) : String :=
  if n < 10 then "0" ++ toString n else toString n

/-- Model of `datetime.isoformat()` for a whole-second datetime. -/
def isoOfDateTime (dt : DateTime) : String :=
  toString dt.date.year ++ "-" ++ pad2 dt.date.month ++ "-" ++ pad2 dt.date.day ++
    "T" ++ pad2 (Int.ofNat (dt.secs / 3600)) ++ ":" ++
    pad2 (Int.ofNat ((dt.secs / 60) % 60)) ++ ":" ++ pad2 (Int.ofNat (dt.secs % 60))

/-- Lower-casing a string, as `str.lower()`. -/
def lowerStr (s : String) : String := String.mk (s.data.map Char.toLower)

/-- Splitting a character list at every occurrence of a separator,
keeping empty pieces, as Python `str.split(sep)` does. -/
def splitOnChar (sep : Char) : List Char → List (List Char)
  | [] => [[]]
  | c :: rest =>
    let r := splitOnChar sep rest
    if c == sep then [] :: r
    else
      match r with
      | h :: t => (c :: h) :: t
      | [] => [[c]]

/-- Splitting a character list at every character satisfying a
predicate, keeping empty pieces. -/
def splitByPred (p : Char → Bool) : List Char → List (List Char)
  | [] => [[]]
  | c :: rest =>
    let r := splitByPred p rest
    if p c then [] :: r
    else
      match r with
      | h :: t => (c :: h) :: t
      | [] => [[c]]

/-- Whether the first character list starts with the second. -/
def startsWithChars : List Char → List Char → Bool
  | [], _ => true
  | _ :: _, [] => false
  | a :: as, b :: bs => a == b && startsWithChars as bs

/-- Substring occurrence on character lists. -/
def hasSubChars (pat : List Char) : List Char → Bool
  | [] => pat.isEmpty
  | c :: rest => startsWithChars pat (c :: rest) || hasSubChars pat rest

/-- Model of Python `pat in hay` on strings. -/
def strContains (hay pat : String) : Bool := hasSubChars pat.data hay.data

/-- Numeric value of a digit list. -/
def digitsVal (cs : List Char) : Nat :=
  cs.foldl (fun acc c => acc * 10 + (c.toNat - 48)) 0

/-- Whether every character is a decimal digit. -/
def allDigits (cs : List Char) : Bool := cs.all Char.isDigit

/-- Model of the `%d` directive of `strptime`: one or two digits, value
between 1 and 31. -/
def parseDayTok (s : String) : Option Int :=
  let cs := s.data
  if allDigits cs && (cs.length == 1 || cs.length == 2) then
    let v := digitsVal cs
    if 1 ≤ v ∧ v ≤ 31 then some (Int.ofNat v) else none
  else none

/-- Model of the `%m` directive of `strptime`: one or two digits, value
between 1 and 12. -/
def parseMonthTok (s : String) : Option Int :=
  let cs := s.data
  if allDigits cs && (cs.length == 1 || cs.length == 2) then
    let v := digitsVal cs
    if 1 ≤ v ∧ v ≤ 12 then some (Int.ofNat v) else none
  else none

/-- Model of the `%Y` directive: exactly four digits. -/
def parseYear4 (s : String) : Option Int :=
  let cs := s.data
  if allDigits cs && cs.length == 4 then some (Int.ofNat (digitsVal cs)) else none

/-- Model of the `%y` directive: exactly two digits, mapped into
1969-2068 as `strptime` does. -/
def parseYear2 (s : String) : Option Int :=
  let cs := s.data
  if allDigits cs && cs.length == 2 then
    let v := digitsVal cs
    some (Int.ofNat (if v ≤ 68 then 2000 + v else 1900 + v))
  else none

/-- Abbreviated month names recognised by `%b` (case-insensitive). -/
def monthAbbrIdx (t : String) : Option Int :=
  match lowerStr t with
  | "jan" => some 1 | "feb" => some 2 | "mar" => some 3 | "apr" => some 4
  | "may" => some 5 | "jun" => some 6 | "jul" => some 7 | "aug" => some 8
  | "sep" => some 9 | "oct" => some 10 | "nov" => some 11 | "dec" => some 12
  | _ => none

/-- Full month names recognised by `%B` (case-insensitive). -/
def monthFullIdx (t : String) : Option Int :=
  match lowerStr t with
  | "january" => some 1 | "february" => some 2 | "march" => some 3
  | "april" => some 4 | "may" => some 5 | "june" => some 6 | "july" => some 7
  | "august" => some 8 | "september" => some 9 | "october" => some 10
  | "november" => some 11 | "december" => some 12
  | _ => none

/-- The format `"%d.%m.%Y"`: day, month, four-digit year separated by dots,
validated by the `datetime` constructor. -/
def fmtDMY4 (text : String) : Option Date :=
  match (splitOnChar '.' text.data).map String.mk with
  | [a, b, c] =>
    match parseDayTok a, parseMonthTok b, parseYear4 c with
    | some d, some m, some y => if validDate y m d then some ⟨y, m, d⟩ else none
    | _, _, _ => none
  | _ => none

/-- The format `"%d.%m.%y"`: day, month, two-digit year separated by dots. -/
def fmtDMy2 (text : String) : Option Date :=
  match (splitOnChar '.' text.data).map String.mk with
  | [a, b, c] =>
    match parseDayTok a, parseMonthTok b, parseYear2 c with
    | some d, some m, some y => if validDate y m d then some ⟨y, m, d⟩ else none
    | _, _, _ => none
  | _ => none

/-- Whitespace tokenisation of the whole string: the literal space of a
`strptime` format matches one or more whitespace characters, and the match
must cover the whole input, so leading or trailing whitespace fails. -/
def wsTokens (text : String) : Option (List String) :=
  let cs := text.data
  if cs.head?.elim false Char.isWhitespace || cs.getLast?.elim false Char.isWhitespace then
    none
  else
    some (((splitByPred Char.isWhitespace cs).map String.mk).filter (fun t => t ≠ ""))

/-- A month-name-then-day format (`"%b %d"` or `"%B %d"`), validated
against year 1900 as `strptime` constructs the year-less datetime. -/
def fmtMonthDay (monthOf : String → Option Int) (text : String) : Option (Int × Int) :=
  match wsTokens text with
  | some [t1, t2] =>
    match monthOf t1, parseDayTok t2 with
    | some m, some d => if validDate 1900 m d then some (m, d) else none
    | _, _ => none
  | _ => none

/-- A day-then-month-name format (`"%d %b"` or `"%d %B"`). -/
def fmtDayMonth (monthOf : String → Option Int) (text : String) : Option (Int × Int) :=
  match wsTokens text with
  | some [t1, t2] =>
    match parseDayTok t1, monthOf t2 with
    | some d, some m => if validDate 1900 m d then some (m, d) else none
    | _, _ => none
  | _ => none

/-- Year adjustment for year-less formats in `_is_date_in_range`: the
parsed date gets the current year, and if that lies in the future it is
moved to the previous year; a `ValueError` from `replace` makes the format
attempt fail. -/
def yearlessAdjust (now : DateTime) (m d : Int) : Option DateTime :=
  let cy := now.date.year
  if validDate cy m d then
    let cand : DateTime := ⟨⟨cy, m, d⟩, 0⟩
    if dtLtb now cand then
      if validDate (cy - 1) m d then some ⟨⟨cy - 1, m, d⟩, 0⟩ else none
    else some cand
  else none

/-- The format loop of `_is_date_in_range` (lines 180-207 of
`channel_parser.py`): the six formats are tried in order and the first
success wins; `none` means no format matched, in which case the source
includes the message by default. -/
def tryDateFormats (now : DateTime) (text : String) : Option DateTime :=
  match fmtDMY4 text with
  | some d => some ⟨d, 0⟩
  | none =>
  match fmtDMy2 text with
  | some d => some ⟨d, 0⟩
  | none =>
  match (fmtMonthDay monthAbbrIdx text).bind (fun p => yearlessAdjust now p.1 p.2) with
  | some dt => some dt
  | none =>
  match (fmtDayMonth monthAbbrIdx text).bind (fun p => yearlessAdjust now p.1 p.2) with
  | some dt => some dt
  | none =>
  match (fmtMonthDay monthFullIdx text).bind (fun p => yearlessAdjust now p.1 p.2) with
  | some dt => some dt
  | none =>
  (fmtDayMonth monthFullIdx text).bind (fun p => yearlessAdjust now p.1 p.2)

/-- Date resolution from a date label, mirroring lines 168-207 of
`channel_parser.py`: `"today"` and `"yesterday"` are recognised as
substrings of the lower-cased text, otherwise the format loop runs. -/
def parseDateText (now : DateTime) (text : String) : Option DateTime :=
  if strContains (lowerStr text) "today" then some now
  else if strContains (lowerStr text) "yesterday" then some (now.subDays 1)
  else tryDateFormats now text

/-- Model of `re.search(r'(\d+(?:\.\d+)?[KMG]?)', text)`: maximal digit
run, optional decimal part, optional magnitude suffix. -/
def takeDigits : List Char → List Char × List Char
  | [] => ([], [])
  | c :: rest =>
    if c.isDigit then
      let p := takeDigits rest
      (c :: p.1, p.2)
    else ([], c :: rest)

/-- The magnitude-suffix match starting at a position whose head is a
digit. -/
def magnitudeFrom (cs : List Char) : List Char :=
  let p1 := takeDigits cs
  let dec : List Char × List Char :=
    match p1.2 with
    | '.' :: r =>
      let p2 := takeDigits r
      if p2.1.isEmpty then ([], p1.2) else ('.' :: p2.1, p2.2)
    | _ => ([], p1.2)
  let suf : List Char :=
    match dec.2 with
    | c :: _ => if c == 'K' || c == 'M' || c == 'G' then [c] else []
    | [] => []
  p1.1 ++ dec.1 ++ suf

/-- Leftmost search for the magnitude-suffix pattern. -/
def findMagAux : List Char → Option (List Char)
  | [] => none
  | c :: rest => if c.isDigit then some (magnitudeFrom (c :: rest)) else findMagAux rest

/-- First magnitude-suffix number in a string, as matched by the
`re.search` calls for subscriber, view and comment counts. -/
def findMagnitude (s : String) : Option String :=
  (findMagAux s.data).map (fun cs => String.mk cs)

/-!
A Python value as it occurs in post records: scalar, list, or dict.
The mutual presentation keeps recursion over nested dictionaries
structural.
-/

mutual
inductive PyVal : Type where
  | str : String → PyVal
  | int : Int → PyVal
  | bool : Bool → PyVal
  | none : PyVal
  | list : PyList → PyVal
  | dict : Fields → PyVal

inductive PyList : Type where
  | nil : PyList
  | cons : PyVal → PyList → PyList

inductive Fields : Type where
  | nil : Fields
  | cons : String → PyVal → Fields → Fields
end

/-- Dictionary lookup (`post.get(key)`), returning the first binding. -/
def Fields.find (k : String) : Fields → Option PyVal
  | .nil => Option.none
  | .cons k0 v0 tl => if k0 = k then some v0 else tl.find k

/-- Whether a key is bound. -/
def Fields.hasKey (k : String) : Fields → Bool
  | .nil => false
  | .cons k0 _ tl => k0 == k || tl.hasKey k

/-- Concatenation of field lists. -/
def Fields.append : Fields → Fields → Fields
  | .nil, g => g
  | .cons k v tl, g => .cons k v (tl.append g)

/-- Python dictionary assignment `d[k] = v`: replaces the value of an
existing binding in place, else appends a new binding at the end. -/
def Fields.upsert : Fields → String → PyVal → Fields
  | .nil, k, v => .cons k v .nil
  | .cons k0 v0 tl, k, v =>
    if k0 = k then .cons k0 v tl else .cons k0 v0 (tl.upsert k v)

/-- Python `d.update(src)`: assign every binding of `src` in order. -/
def Fields.updateAll : Fields → Fields → Fields
  | acc, .nil => acc
  | acc, .cons k v tl => Fields.updateAll (acc.upsert k v) tl

/-- The key list of a dictionary, in insertion order. -/
def Fields.keys : Fields → List String
  | .nil => []
  | .cons k _ tl => k :: tl.keys

/-- Key uniqueness of a field list. -/
def Fields.nodupKeys : Fields → Bool
  | .nil => true
  | .cons k _ tl => !tl.hasKey k && tl.nodupKeys

/-- List cons and membership helpers for `PyList`. -/
def pyListOf : List PyVal → PyList
  | [] => .nil
  | v :: vs => .cons v (pyListOf vs)

/-- Python truthiness of a value (`if url:` style tests). -/
def pyTruthy : PyVal → Bool
  | .str s => !(s == "")
  | .int n => !(n == 0)
  | .bool b => b
  | .none => false
  | .list .nil => false
  | .list (.cons _ _) => true
  | .dict .nil => false
  | .dict (.cons _ _ _) => true

/-!
String renderings of Python values: `pyStrV` models `str(v)` and
`pyReprV` models `repr(v)`; containers render their members with `repr`.
Quote escaping inside `repr` of strings is not modelled.
-/

mutual
def pyStrV : PyVal → String
  | .str s => s
  | v => pyReprV v

def pyReprV : PyVal → String
  | .str s => "'" ++ s ++ "'"
  | .int n => toString n
  | .bool b => if b then "True" else "False"
  | .none => "None"
  | .list xs => "[" ++ pyReprList xs ++ "]"
  | .dict fs => "\x7b" ++ pyReprFields fs ++ "\x7d"

def pyReprList : PyList → String
  | .nil => ""
  | .cons v .nil => pyReprV v
  | .cons v tl => pyReprV v ++ ", " ++ pyReprList tl

def pyReprFields : Fields → String
  | .nil => ""
  | .cons k v .nil => "'" ++ k ++ "': " ++ pyReprV v
  | .cons k v tl => "'" ++ k ++ "': " ++ pyReprV v ++ ", " ++ pyReprFields tl
end

/-- The elements of a `PyList` as a Lean list. -/
def PyList.toList : PyList → List PyVal
  | .nil => []
  | .cons v tl => v :: tl.toList

/-- Join of the string renderings of the truthy elements of a list with
`"; "`, as the media branch of `_flatten_post` does. -/
def joinSemicolon : List String → String
  | [] => ""
  | [s] => s
  | s :: rest => s ++ "; " ++ joinSemicolon rest

/-- `"; ".join(str(url) for url in value if url)`. -/
def joinTruthy (xs : PyList) : String :=
  joinSemicolon ((xs.toList.filter pyTruthy).map pyStrV)

/-- `"; ".join(str(item) for item in value if item is not None)`. -/
def joinNonNone (xs : PyList) : String :=
  joinSemicolon ((xs.toList.filter (fun v => !(v matches .none))).map pyStrV)

/-- A media descriptor as produced by the media-collection script of
`_extract_post_data`. -/
inductive MediaItem : Type where
  | photo : String → MediaItem
  | video : String → MediaItem
  | document : String → MediaItem
deriving DecidableEq

/-- A rendered message element, carrying the values the page queries of
`_get_posts`, `_is_date_in_range` and `_extract_post_data` would return
for it.  `mid` is the resolved `data-mid` / `data-message-id` / `id`
attribute (`Option.none` models a null result); `dateGroupText`,
`timeText` and `dateText` are the text contents of a
`.message-date-group`, `.time` and `.date` descendant when present;
`descTs` is the `data-timestamp` attribute of a `[data-timestamp]`
descendant of the element; `dateAttrTs` is the `data-timestamp` attribute
carried by the date element itself; `extractFails` models an exception
reaching the outer handler of `_extract_post_data`, with message
`errMsg`. -/
structure Element where
  mid : Option String
  dateGroupText : Option String
  timeText : Option String
  dateText : Option String
  descTs : Option Int
  dateAttrTs : Option Int
  extractFails : Bool
  errMsg : String
  contentText : Option String
  viewsText : Option String
  reactionsCount : Option Int
  commentsText : Option String
  media : List MediaItem
  forwardedText : Option String

/-- The configuration the engine reads: `self.config.limit`,
`self.config.start_date`, `self.config.end_date`, and the current time
used by `datetime.now()` during date parsing. -/
structure Config where
  limit : Nat
  startDate : Option Date
  endDate : Option Date
  now : DateTime

/-- One round of the scroll-collect loop as observed from the page: the
currently rendered message elements, whether the scroll offset is already
at the top bound, and whether the batch of scroll steps changed the
scroll position. -/
structure Round where
  elements : List Element
  atTop : Bool
  scrollChanged : Bool

/-- `max_no_new_attempts` in `_get_posts`. -/
def maxNoNewAttempts : Nat := 5

/-- `scroll_batch_size` in `_get_posts`. -/
def scrollBatchSize : Nat := 10

/-- Resolution of a message date from an explicit timestamp attribute or
the date label text, as `_is_date_in_range` does (a zero timestamp is
falsy in Python and falls through to text parsing). -/
def resolveMsgDateFrom (now : DateTime) (ts? : Option Int) (txt : String) : Option DateTime :=
  match ts? with
  | some ts => if ts ≠ 0 then some (tsToDateTime ts) else parseDateText now txt
  | Option.none => parseDateText now txt

/-- The date element `_is_date_in_range` reads: `.message-date-group`
first, then `.time`. -/
def rangeDateText (e : Element) : Option String :=
  e.dateGroupText.orElse (fun _ => e.timeText)

/-- Shallow embedding of `_is_date_in_range` (lines 137-223 of
`channel_parser.py`): with no date filter, no date element, or an
unparseable label the message is included; otherwise the resolved date is
compared against the inclusive range. -/
def is_date_in_range (cfg : Config) (e : Element) : Bool :=
  if cfg.startDate = Option.none ∧ cfg.endDate = Option.none then true
  else
    match rangeDateText e with
    | Option.none => true
    | some txt =>
      match resolveMsgDateFrom cfg.now e.descTs txt with
      | Option.none => true
      | some msg =>
        if cfg.startDate.elim false (fun sd => dateLtb msg.date sd) then false
        else if cfg.endDate.elim false (fun ed => dateLtb ed msg.date) then false
        else true

/-- The date element the out-of-range branch of `_get_posts` reads
(`.time, .date`) and `_extract_post_data` reads (`.time` else `.date`). -/
def timeOrDateText (e : Element) : Option String :=
  e.timeText.orElse (fun _ => e.dateText)

/-- The force-stop test of the out-of-range branch of `_get_posts`
(lines 293-315): a `.time, .date` element exists, a `[data-timestamp]`
descendant provides a truthy timestamp, and its date is strictly before
the configured start date. -/
def stopTrig (cfg : Config) (e : Element) : Bool :=
  match timeOrDateText e with
  | Option.none => false
  | some _ =>
    match e.descTs with
    | some ts =>
      if ts ≠ 0 then cfg.startDate.elim false (fun sd => dateLtb (tsToDateTime ts).date sd)
      else false
    | Option.none => false

/-- The `id` value stored by `_extract_post_data` (`None` when the
attribute resolution returns null). -/
def optStrVal : Option String → PyVal
  | some s => .str s
  | Option.none => .none

/-- An optional single-field dictionary fragment. -/
def optField (k : String) : Option PyVal → Fields
  | some v => .cons k v .nil
  | Option.none => .nil

/-- The dict for one media descriptor, as the media script builds it. -/
def mediaVal : MediaItem → PyVal
  | .photo u => .dict (.cons "type" (.str "photo") (.cons "url" (.str u) .nil))
  | .video u => .dict (.cons "type" (.str "video") (.cons "url" (.str u) .nil))
  | .document n => .dict (.cons "type" (.str "document") (.cons "name" (.str n) .nil))

/-- Shallow embedding of `_extract_post_data` (lines 420-587 of
`channel_parser.py`).  On an exception reaching the outer handler the
placeholder `{"id": "unknown", "error": str(e)}` is returned; otherwise
each field is read independently: absent elements or failed regex matches
simply omit the field, a zero reaction count is falsy and omitted, media
is attached only when non-empty. -/
def extract_post_data (e : Element) : Fields :=
  if e.extractFails then .cons "id" (.str "unknown") (.cons "error" (.str e.errMsg) .nil)
  else
    let idF : Fields := .cons "id" (optStrVal e.mid) .nil
    let dateF : Fields :=
      match timeOrDateText e with
      | Option.none => .nil
      | some txt =>
        let base : Fields := .cons "date" (.str txt) .nil
        match e.dateAttrTs with
        | some ts =>
          if ts ≠ 0 then
            base.append (.cons "timestamp" (.int ts)
              (.cons "datetime" (.str (isoOfDateTime (tsToDateTime ts))) .nil))
          else base
        | Option.none => base
    let contentF := optField "content" (e.contentText.map .str)
    let viewsF := optField "views" ((e.viewsText.bind findMagnitude).map .str)
    let reactF : Fields :=
      match e.reactionsCount with
      | some n => if n ≠ 0 then .cons "reactions" (.int n) .nil else .nil
      | Option.none => .nil
    let commentsF := optField "comments" ((e.commentsText.bind findMagnitude).map .str)
    let mediaF : Fields :=
      if e.media.isEmpty then .nil
      else .cons "media" (.list (pyListOf (e.media.map mediaVal))) .nil
    let fwdF := optField "forwarded_from" (e.forwardedText.map .str)
    ((((((idF.append dateF).append contentF).append viewsF).append reactF).append
      commentsF).append mediaF).append fwdF

/-- The mutable state of one `_get_posts` run: the collected records, the
`processed_ids` seen-set, the `consecutive_no_new_posts` counter, and
whether the loop has exited. -/
structure EngState where
  posts : List Fields
  seen : List String
  counter : Nat
  stopped : Bool

/-- The initial state of a run. -/
def initState : EngState := { posts := [], seen := [], counter := 0, stopped := false }

/-- The inner per-element loop of `_get_posts` (lines 269-325), threading
the state and the `new_posts_in_batch` count: stop at the limit; skip
elements with a falsy or already-seen identifier; record the identifier;
on an out-of-range date with a configured start date, possibly force-stop
and skip; otherwise extract and append. -/
def processElems (cfg : Config) : EngState → Nat → List Element → EngState × Nat
  | s, n, [] => (s, n)
  | s, n, e :: es =>
    if cfg.limit ≤ s.posts.length then (s, n)
    else
      match e.mid with
      | Option.none => processElems cfg s n es
      | some m =>
        if m = "" ∨ m ∈ s.seen then processElems cfg s n es
        else
          let s1 : EngState := { s with seen := m :: s.seen }
          if is_date_in_range cfg e = false ∧ cfg.startDate.isSome then
            let s2 := if stopTrig cfg e then { s1 with counter := maxNoNewAttempts } else s1
            processElems cfg s2 n es
          else
            processElems cfg { s1 with posts := s1.posts ++ [extract_post_data e] } (n + 1) es

/-- One iteration of the `while` loop of `_get_posts` (lines 256-407):
check the loop condition; with no rendered elements bump the counter and
restart; otherwise process the elements, exit on the limit or an
exhausted counter, exit at the top of the history, else scroll and update
the idle tracking (the counter is bumped when the round collected nothing
new or the scroll position did not change, and reset otherwise). -/
def stepRound (cfg : Config) (s : EngState) (r : Round) : EngState :=
  if s.stopped then s
  else if ¬(s.posts.length < cfg.limit ∧ s.counter < maxNoNewAttempts) then
    { s with stopped := true }
  else if r.elements.isEmpty then { s with counter := s.counter + 1 }
  else
    let pr := processElems cfg s 0 r.elements
    let s1 := pr.1
    if cfg.limit ≤ s1.posts.length ∨ maxNoNewAttempts ≤ s1.counter then
      { s1 with stopped := true }
    else if r.atTop then { s1 with stopped := true }
    else if pr.2 = 0 ∨ r.scrollChanged = false then { s1 with counter := s1.counter + 1 }
    else { s1 with counter := 0 }

/-- A whole `_get_posts` run over a sequence of observed rounds. -/
def runEngine (cfg : Config) (trace : List Round) : EngState :=
  trace.foldl (stepRound cfg) initState

/-- The number of newly collected records a round would produce from a
given state. -/
def newCountOf (cfg : Config) (s : EngState) (r : Round) : Nat :=
  (processElems cfg s 0 r.elements).2

/-- Whether the loop condition of `_get_posts` still lets a next round
run. -/
def runningGuard (cfg : Config) (s : EngState) : Bool :=
  !s.stopped && decide (s.posts.length < cfg.limit) && decide (s.counter < maxNoNewAttempts)

/-- A chain of rounds each of which, from the state it meets, collects
zero new records and leaves the scroll position unchanged. -/
def idleChainB (cfg : Config) : EngState → List Round → Bool
  | _, [] => true
  | s, r :: rs =>
    newCountOf cfg s r == 0 && !r.scrollChanged && idleChainB cfg (stepRound cfg s r) rs

/-- A scroll command issued to the page. -/
inductive ScrollCmd : Type where
  | upBy : Nat → ScrollCmd
deriving DecidableEq

/-- The scroll commands a round issues: when the loop body reaches the
scroll phase it scrolls up by 800 pixels, `scroll_batch_size` times
(lines 343-373 of `channel_parser.py`); every other path issues none. -/
def roundCmds (cfg : Config) (s : EngState) (r : Round) : List ScrollCmd :=
  if s.stopped then []
  else if ¬(s.posts.length < cfg.limit ∧ s.counter < maxNoNewAttempts) then []
  else if r.elements.isEmpty then []
  else
    let s1 := (processElems cfg s 0 r.elements).1
    if cfg.limit ≤ s1.posts.length ∨ maxNoNewAttempts ≤ s1.counter then []
    else if r.atTop then []
    else List.replicate scrollBatchSize (ScrollCmd.upBy 800)

/-- The page state `_get_channel_info` observes: the title element text
and whether reading it fails (`_get_channel_title` swallows the failure),
likewise for the description and subscriber elements, the current page
URL, and an unexpected exception (with message) raised by the unguarded
tail of the method, which is what the outer handler catches. -/
structure InfoPage where
  titleFails : Bool
  titleText : Option String
  descFails : Bool
  descText : Option String
  subsFails : Bool
  subsText : Option String
  pageUrl : String
  unexpected : Option String

/-- Shallow embedding of `_get_channel_title` (lines 126-135): any
failure or a missing element yields `None`. -/
def get_channel_title (p : InfoPage) : Option String :=
  if p.titleFails then Option.none else p.titleText

/-- Shallow embedding of `_get_channel_info` (lines 83-124): the title is
stored unconditionally (possibly `None`); description and subscriber
reads are individually guarded and omitted on failure; an unexpected
exception in the unguarded tail makes the outer handler return
`{"title": "Unknown", "error": str(e)}`. -/
def get_channel_info (p : InfoPage) : Fields :=
  let info : Fields := .cons "title" (optStrVal (get_channel_title p)) .nil
  let info :=
    if p.descFails then info
    else match p.descText with
      | some t => info.upsert "description" (.str t)
      | Option.none => info
  let info :=
    if p.subsFails then info
    else match p.subsText with
      | some t =>
        match findMagnitude t with
        | some m => info.upsert "subscribers" (.str m)
        | Option.none => info
      | Option.none => info
  match p.unexpected with
  | some e => .cons "title" (.str "Unknown") (.cons "error" (.str e) .nil)
  | Option.none =>
    if strContains p.pageUrl "@" then
      let username := String.mk ((splitOnChar '@' p.pageUrl.data).getLastD [])
      (info.upsert "username" (.str username)).upsert "url" (.str ("https://t.me/" ++ username))
    else info

/-!
Shallow embedding of `_flatten_post` (lines 244-285 of
`data_exporter.py`).  `flattenLoop` walks the items of the dictionary in
order threading the accumulated `flat_post`; `flattenStep` handles one
item: a list under the key `"media"` is joined from its truthy members,
any other list from its non-`None` members, scalars are assigned
directly, and a nested dictionary is flattened under the dot-joined key
and merged with `update`.  The source guards the media join by
`key == "media" and isinstance(value, list)`, which is what the match
below implements.
-/

mutual
def flattenLoop : Fields → String → Fields → Fields
  | .nil, _, acc => acc
  | .cons k v tl, pre, acc => flattenLoop tl pre (flattenStep k v pre acc)

def flattenStep (k : String) (v : PyVal) (pre : String) (acc : Fields) : Fields :=
  let fullKey := if pre = "" then k else pre ++ "." ++ k
  match v with
  | .list xs =>
    if k = "media" then acc.upsert fullKey (.str (joinTruthy xs))
    else acc.upsert fullKey (.str (joinNonNone xs))
  | .dict d => acc.updateAll (flattenLoop d fullKey .nil)
  | sv => acc.upsert fullKey sv
end

/-- `_flatten_post(post, prefix)`. -/
def flatten_post (post : Fields) (pre : String) : Fields := flattenLoop post pre .nil

/-- How the `csv` module renders one cell: `None` becomes the empty
string, anything else its `str` rendering. -/
def pyCsvCell : PyVal → String
  | .none => ""
  | v => pyStrV v

/-- Model of one `csv.DictWriter.writerow` call with the given field
names: a row holding a key outside the field names raises `ValueError`
(modelled as `Option.none`); a missing key is written as the default
`restval` empty string.  Quoting is not modelled because the writer and
reader of the `csv` module are mutually inverse on cell strings. -/
def write_csv_row (fields : List String) (row : Fields) : Option (List String) :=
  if row.keys.all (fun k => fields.contains k) then
    some (fields.map (fun f =>
      match row.find f with
      | some v => pyCsvCell v
      | Option.none => ""))
  else Option.none

/-- Model of one `csv.DictReader` row: every cell comes back as a
string. -/
def read_csv_row : List String → List String → Fields
  | f :: fs, c :: cs => .cons f (.str c) (read_csv_row fs cs)
  | _, _ => .nil

/-- An element with no resolvable data, used as a base for concrete
examples. -/
def blankElem : Element :=
  { mid := Option.none, dateGroupText := Option.none, timeText := Option.none,
    dateText := Option.none, descTs := Option.none, dateAttrTs := Option.none,
    extractFails := false, errMsg := "", contentText := Option.none,
    viewsText := Option.none, reactionsCount := Option.none,
    commentsText := Option.none, media := [], forwardedText := Option.none }

/-- A configuration with no date filter. -/
def plainCfg (limit : Nat) : Config :=
  { limit := limit, startDate := Option.none, endDate := Option.none,
    now := ⟨⟨2024, 1, 10⟩, 3600⟩ }

/-- Scalar test matching the `isinstance(value, (str, int, float, bool,
type(None)))` branch of `_flatten_post`. -/
def isScalarV : PyVal → Bool
  | .str _ => true
  | .int _ => true
  | .bool _ => true
  | .none => true
  | .list _ => false
  | .dict _ => false

/-- Every value of a field list is scalar. -/
def Fields.allScalar : Fields → Bool
  | .nil => true
  | .cons _ v tl => isScalarV v && tl.allScalar

/-- A message element whose whole-record extraction raises. -/
def failElemA : Element := { blankElem with mid := some "a", extractFails := true, errMsg := "boom1" }

/-- A second failing element with a distinct identifier. -/
def failElemB : Element := { blankElem with mid := some "b", extractFails := true, errMsg := "boom2" }

/-- A round rendering two failing elements. -/
def dupRound : Round := { elements := [failElemA, failElemB], atTop := false, scrollChanged := true }

/-- An element that extracts successfully. -/
def okElemA : Element := { blankElem with mid := some "a" }

/-- A round that collects one new record but whose scroll position does
not change. -/
def noScrollRound : Round := { elements := [okElemA], atTop := false, scrollChanged := false }

/-- A round whose only element has no resolvable identifier and whose
scroll position does not change. -/
def idleRound : Round := { elements := [blankElem], atTop := false, scrollChanged := false }

/-- A configuration with a start date of 2024-01-10. -/
def startCfg : Config :=
  { limit := 10, startDate := some ⟨2024, 1, 10⟩, endDate := Option.none,
    now := ⟨⟨2024, 1, 10⟩, 3600⟩ }

/-- An element dated `"yesterday"` (before the start date) with no
explicit timestamp attribute. -/
def oldTextElem : Element := { blankElem with mid := some "old", timeText := some "yesterday" }

/-- An element with an explicit timestamp attribute dated 1970-01-02,
before the start date. -/
def oldTsElem : Element :=
  { blankElem with mid := some "ts", timeText := some "x", descTs := some 86400000 }

/-- A page whose title read fails and nothing else is present. -/
def titleFailPage : InfoPage :=
  { titleFails := true, titleText := some "The Channel", descFails := false,
    descText := Option.none, subsFails := false, subsText := Option.none,
    pageUrl := "https://web.telegram.org/k/", unexpected := Option.none }

/-- A post record with a nested media list, an integer scalar and a
nested dictionary, used to exercise flattening and the CSV round trip. -/
def demoPost9 : Fields :=
  .cons "id" (.str "42")
    (.cons "reactions" (.int 6)
      (.cons "media" (.list (pyListOf [mediaVal (.photo "http://a/p.jpg"),
                                       mediaVal (.document "f.txt")]))
        (.cons "channel" (.dict (.cons "name" (.str "chan") .nil)) .nil)))


/-- The identifier bookkeeping invariant of a `_get_posts` state: every
collected record without an `error` field carries a string identifier
recorded in the seen-set, and the identifiers of such records are
pairwise distinct. -/
def engInv (s : EngState) : Prop :=
  (∀ p ∈ s.posts, p.find "error" = Option.none →
    ∃ m, p.find "id" = some (.str m) ∧ m ∈ s.seen) ∧
  s.posts.Pairwise (fun p q => p.find "error" = Option.none →
    q.find "error" = Option.none → p.find "id" ≠ q.find "id")

/-- Induction principle for `Fields` alone (the generated recursor is the
mutual one, which the `induction` tactic cannot use directly). -/
theorem Fields.ind {motive : Fields → Prop} (hnil : motive .nil)
    (hcons : ∀ k v tl, motive tl → motive (.cons k v tl)) : ∀ f, motive f
  | .nil => hnil
  | .cons k v tl => hcons k v tl (Fields.ind hnil hcons tl)

theorem Fields.find_upsert_self (f : Fields) (k : String) (v : PyVal) :
    (f.upsert k v).find k = some v := by
  induction f using Fields.ind with
  | hnil => simp [Fields.upsert, Fields.find]
  | hcons k0 v0 tl ih =>
    by_cases h : k0 = k
    · simp [Fields.upsert, h, Fields.find]
    · simp [Fields.upsert, h, Fields.find, ih]

theorem Fields.find_upsert_ne (f : Fields) {k k2 : String} (v : PyVal) (h : k ≠ k2) :
    (f.upsert k v).find k2 = f.find k2 := by
  induction f using Fields.ind with
  | hnil => simp [Fields.upsert, Fields.find, h]
  | hcons k0 v0 tl ih =>
    by_cases h0 : k0 = k
    · subst h0; simp [Fields.upsert, Fields.find, h, ih]
    · simp [Fields.upsert, h0, Fields.find, ih]

theorem Fields.hasKey_upsert (f : Fields) (k k2 : String) (v : PyVal) :
    (f.upsert k v).hasKey k2 = (f.hasKey k2 || k == k2) := by
  induction f using Fields.ind with
  | hnil => simp [Fields.upsert, Fields.hasKey]
  | hcons k0 v0 tl ih =>
    by_cases h0 : k0 = k
    · subst h0
      by_cases h2 : k0 = k2 <;> simp [Fields.upsert, Fields.hasKey, h2]
    · simp only [Fields.upsert, if_neg h0, Fields.hasKey, ih, Bool.or_assoc]

theorem Fields.nodupKeys_upsert (f : Fields) (k : String) (v : PyVal) :
    f.nodupKeys = true → (f.upsert k v).nodupKeys = true := by
  induction f using Fields.ind with
  | hnil => intro _; simp [Fields.upsert, Fields.nodupKeys, Fields.hasKey]
  | hcons k0 v0 tl ih =>
    intro h
    simp only [Fields.nodupKeys, Bool.and_eq_true, Bool.not_eq_true'] at h
    by_cases h0 : k0 = k
    · subst h0; simp [Fields.upsert, Fields.nodupKeys, h.1, h.2]
    · have hne : (k == k0) = false := beq_eq_false_iff_ne.mpr (fun hh => h0 hh.symm)
      simp [Fields.upsert, h0, Fields.nodupKeys, Fields.hasKey_upsert, h.1, ih h.2, hne]

theorem Fields.hasKey_append (f g : Fields) (k : String) :
    (f.append g).hasKey k = (f.hasKey k || g.hasKey k) := by
  induction f using Fields.ind with
  | hnil => simp [Fields.append, Fields.hasKey]
  | hcons k0 v0 tl ih => simp [Fields.append, Fields.hasKey, ih, Bool.or_assoc]

theorem Fields.append_assoc (f g h : Fields) :
    (f.append g).append h = f.append (g.append h) := by
  induction f using Fields.ind with
  | hnil => simp [Fields.append]
  | hcons k0 v0 tl ih => simp [Fields.append, ih]

theorem Fields.append_nil (f : Fields) : f.append .nil = f := by
  induction f using Fields.ind with
  | hnil => simp [Fields.append]
  | hcons k0 v0 tl ih => simp [Fields.append, ih]

theorem Fields.upsert_eq_append (f : Fields) (k : String) (v : PyVal) :
    f.hasKey k = false → f.upsert k v = f.append (.cons k v .nil) := by
  induction f using Fields.ind with
  | hnil => intro _; simp [Fields.upsert, Fields.append]
  | hcons k0 v0 tl ih =>
    intro h
    simp only [Fields.hasKey, Bool.or_eq_false_iff, beq_eq_false_iff_ne, ne_eq] at h
    simp [Fields.upsert, h.1, Fields.append, ih h.2]

theorem Fields.updateAll_eq_append (g : Fields) : ∀ acc : Fields,
    g.nodupKeys = true → (∀ k, g.hasKey k = true → acc.hasKey k = false) →
    acc.updateAll g = acc.append g := by
  induction g using Fields.ind with
  | hnil => intro acc _ _; simp [Fields.updateAll, Fields.append_nil]
  | hcons k v tl ih =>
    intro acc hg hdisj
    simp only [Fields.nodupKeys, Bool.and_eq_true, Bool.not_eq_true'] at hg
    have hk : acc.hasKey k = false := hdisj k (by simp [Fields.hasKey])
    rw [Fields.updateAll, Fields.upsert_eq_append acc k v hk, ih _ hg.2 ?_,
      Fields.append_assoc]
    · simp [Fields.append]
    · intro k2 hk2
      rw [Fields.hasKey_append]
      have hacc : acc.hasKey k2 = false := hdisj k2 (by simp [Fields.hasKey, hk2])
      have hne : (k == k2) = false := by
        refine beq_eq_false_iff_ne.mpr (fun hh => ?_)
        subst hh; rw [hk2] at hg; exact absurd hg.1 (by simp)
      simp [hacc, Fields.hasKey, hne]

theorem Fields.allScalar_upsert (f : Fields) (k : String) (v : PyVal) :
    f.allScalar = true → isScalarV v = true → (f.upsert k v).allScalar = true := by
  induction f using Fields.ind with
  | hnil => intro _ hv; simp [Fields.upsert, Fields.allScalar, hv]
  | hcons k0 v0 tl ih =>
    intro h hv
    simp only [Fields.allScalar, Bool.and_eq_true] at h
    by_cases h0 : k0 = k
    · simp [Fields.upsert, h0, Fields.allScalar, h.1, h.2, hv]
    · simp [Fields.upsert, h0, Fields.allScalar, h.1, ih h.2 hv]

theorem Fields.allScalar_updateAll (g : Fields) : ∀ acc : Fields,
    acc.allScalar = true → g.allScalar = true → (acc.updateAll g).allScalar = true := by
  induction g using Fields.ind with
  | hnil => intro acc h _; rw [Fields.updateAll]; exact h
  | hcons k v tl ih =>
    intro acc h hg
    simp only [Fields.allScalar, Bool.and_eq_true] at hg
    rw [Fields.updateAll]
    exact ih _ (Fields.allScalar_upsert acc k v h hg.1) hg.2

theorem Fields.nodupKeys_updateAll (g : Fields) : ∀ acc : Fields,
    acc.nodupKeys = true → (acc.updateAll g).nodupKeys = true := by
  induction g using Fields.ind with
  | hnil => intro acc h; rw [Fields.updateAll]; exact h
  | hcons k v tl ih =>
    intro acc h
    rw [Fields.updateAll]
    exact ih _ (Fields.nodupKeys_upsert acc k v h)

mutual
theorem allScalar_flattenLoop : ∀ (fs : Fields) (pre : String) (acc : Fields),
    acc.allScalar = true → (flattenLoop fs pre acc).allScalar = true
  | .nil, _, _, h => by rw [flattenLoop]; exact h
  | .cons k v tl, pre, acc, h => by
    rw [flattenLoop]
    exact allScalar_flattenLoop tl pre _ (allScalar_flattenStep k v pre acc h)

theorem allScalar_flattenStep : ∀ (k : String) (v : PyVal) (pre : String) (acc : Fields),
    acc.allScalar = true → (flattenStep k v pre acc).allScalar = true
  | _, .str _, _, acc, h => by
    simp only [flattenStep]; exact Fields.allScalar_upsert acc _ _ h rfl
  | _, .int _, _, acc, h => by
    simp only [flattenStep]; exact Fields.allScalar_upsert acc _ _ h rfl
  | _, .bool _, _, acc, h => by
    simp only [flattenStep]; exact Fields.allScalar_upsert acc _ _ h rfl
  | _, .none, _, acc, h => by
    simp only [flattenStep]; exact Fields.allScalar_upsert acc _ _ h rfl
  | k, .list xs, pre, acc, h => by
    simp only [flattenStep]
    split <;> exact Fields.allScalar_upsert acc _ _ h rfl
  | k, .dict d, pre, acc, h => by
    simp only [flattenStep]
    exact Fields.allScalar_updateAll _ acc h (allScalar_flattenLoop d _ .nil rfl)
end

theorem nodup_flattenStep : ∀ (k : String) (v : PyVal) (pre : String) (acc : Fields),
    acc.nodupKeys = true → (flattenStep k v pre acc).nodupKeys = true
  | _, .str _, _, acc, h => by
    simp only [flattenStep]; exact Fields.nodupKeys_upsert acc _ _ h
  | _, .int _, _, acc, h => by
    simp only [flattenStep]; exact Fields.nodupKeys_upsert acc _ _ h
  | _, .bool _, _, acc, h => by
    simp only [flattenStep]; exact Fields.nodupKeys_upsert acc _ _ h
  | _, .none, _, acc, h => by
    simp only [flattenStep]; exact Fields.nodupKeys_upsert acc _ _ h
  | k, .list xs, pre, acc, h => by
    simp only [flattenStep]
    split <;> exact Fields.nodupKeys_upsert acc _ _ h
  | k, .dict d, pre, acc, h => by
    simp only [flattenStep]
    exact Fields.nodupKeys_updateAll _ acc h

theorem nodup_flattenLoop (fs : Fields) : ∀ (pre : String) (acc : Fields),
    acc.nodupKeys = true → (flattenLoop fs pre acc).nodupKeys = true := by
  induction fs using Fields.ind with
  | hnil => intro pre acc h; rw [flattenLoop]; exact h
  | hcons k v tl ih =>
    intro pre acc h
    rw [flattenLoop]
    exact ih pre _ (nodup_flattenStep k v pre acc h)

theorem flattenStep_scalar : ∀ (k : String) (v : PyVal) (acc : Fields),
    isScalarV v = true → flattenStep k v "" acc = acc.upsert k v
  | _, .str _, _, _ => by simp [flattenStep]
  | _, .int _, _, _ => by simp [flattenStep]
  | _, .bool _, _, _ => by simp [flattenStep]
  | _, .none, _, _ => by simp [flattenStep]
  | _, .list _, _, h => by simp [isScalarV] at h
  | _, .dict _, _, h => by simp [isScalarV] at h

theorem flattenLoop_scalar (fs : Fields) : ∀ acc : Fields,
    fs.allScalar = true → flattenLoop fs "" acc = acc.updateAll fs := by
  induction fs using Fields.ind with
  | hnil => intro acc _; rw [flattenLoop, Fields.updateAll]
  | hcons k v tl ih =>
    intro acc h
    simp only [Fields.allScalar, Bool.and_eq_true] at h
    rw [flattenLoop, Fields.updateAll, flattenStep_scalar k v acc h.1]
    exact ih _ h.2

/-- C10: `_flatten_post` is idempotent: every value of a flattened post
is scalar, so flattening the output of `_flatten_post` (with the default
empty prefix) returns it unchanged. -/
theorem claim10_flatten_idempotent (post : Fields) :
    flatten_post (flatten_post post "") "" = flatten_post post "" := by
  have hs : (flattenLoop post "" .nil).allScalar = true :=
    allScalar_flattenLoop post "" .nil rfl
  have hn : (flattenLoop post "" .nil).nodupKeys = true :=
    nodup_flattenLoop post "" .nil rfl
  show flattenLoop (flattenLoop post "" .nil) "" .nil = flattenLoop post "" .nil
  rw [flattenLoop_scalar _ _ hs,
    Fields.updateAll_eq_append _ Fields.nil hn (fun _ _ => rfl)]
  rfl

theorem find_read_csv_map (g : String → String) (fields : List String) (f : String) :
    f ∈ fields → (read_csv_row fields (fields.map g)).find f = some (.str (g f)) := by
  induction fields with
  | nil => intro h; exact absurd h (List.not_mem_nil f)
  | cons f0 rest ih =>
    intro h
    by_cases h0 : f0 = f
    · subst h0; simp [List.map, read_csv_row, Fields.find]
    · have hrest : f ∈ rest := by
        rcases List.mem_cons.mp h with h1 | h1
        · exact absurd h1.symm h0
        · exact h1
      simp [List.map, read_csv_row, Fields.find, h0, ih hrest]

/-- C9 (amended): flattening `demoPost9` (a record with a nested media
list and a nested dictionary) joins the media entries with `"; "` and
expands the nested dictionary into a dot-joined `channel.name` key; and
the CSV write/read round trip reproduces every string-valued scalar field
unchanged.  Non-string scalars are not reproduced: they come back as
their string renderings (see the counterexample). -/
theorem claim9_roundtrip_amended :
    flatten_post demoPost9 "" =
      .cons "id" (.str "42") (.cons "reactions" (.int 6)
        (.cons "media"
          (.str "\x7b'type': 'photo', 'url': 'http://a/p.jpg'\x7d; \x7b'type': 'document', 'name': 'f.txt'\x7d")
          (.cons "channel.name" (.str "chan") .nil))) ∧
    (∀ (fields : List String) (row : Fields) (cells : List String) (f s : String),
      write_csv_row fields row = some cells → f ∈ fields →
      row.find f = some (.str s) →
      (read_csv_row fields cells).find f = some (.str s)) := by
  constructor
  · rfl
  · intro fields row cells f s hw hf hrow
    unfold write_csv_row at hw
    by_cases hcheck : (row.keys.all (fun k => fields.contains k)) = true
    · rw [if_pos hcheck] at hw
      have hcells := (Option.some.inj hw).symm
      subst hcells
      rw [find_read_csv_map
        (fun f2 => match row.find f2 with | some v => pyCsvCell v | Option.none => "")
        fields f hf]
      simp [hrow, pyCsvCell, pyStrV]
    · rw [if_neg hcheck] at hw
      exact absurd hw (by simp)

/-- Witness for C9 (amended), applying the theorem to the concrete
demo record and the `id` field. -/
theorem claim9_roundtrip_amended_witness :
    (read_csv_row ["id", "reactions", "media", "channel.name"]
      ["42", "6", "\x7b'type': 'photo', 'url': 'http://a/p.jpg'\x7d; \x7b'type': 'document', 'name': 'f.txt'\x7d", "chan"]).find "id" =
      some (.str "42") :=
  claim9_roundtrip_amended.2 ["id", "reactions", "media", "channel.name"]
    (flatten_post demoPost9 "")
    ["42", "6", "\x7b'type': 'photo', 'url': 'http://a/p.jpg'\x7d; \x7b'type': 'document', 'name': 'f.txt'\x7d", "chan"]
    "id" "42" (by rfl) (by simp) (by rfl)

/-- C9 counterexample: the claim asserts the CSV round trip reproduces
every scalar field unchanged, but the integer field `reactions := 6` of
the flattened demo record is written as the cell `"6"` and read back as
the string value `"6"`, which differs from the original integer value. -/
theorem claim9_counterexample :
    (flatten_post demoPost9 "").find "reactions" = some (.int 6) ∧
    write_csv_row (flatten_post demoPost9 "").keys (flatten_post demoPost9 "") =
      some ["42", "6", "\x7b'type': 'photo', 'url': 'http://a/p.jpg'\x7d; \x7b'type': 'document', 'name': 'f.txt'\x7d", "chan"] ∧
    (read_csv_row (flatten_post demoPost9 "").keys
      ["42", "6", "\x7b'type': 'photo', 'url': 'http://a/p.jpg'\x7d; \x7b'type': 'document', 'name': 'f.txt'\x7d", "chan"]).find "reactions" =
      some (.str "6") ∧
    (PyVal.str "6" = PyVal.int 6 → False) := by
  refine ⟨rfl, rfl, rfl, fun h => PyVal.noConfusion h⟩


theorem processElems_posts_append (cfg : Config) :
    ∀ (es : List Element) (s : EngState) (n : Nat),
      ∃ t, (processElems cfg s n es).1.posts = s.posts ++ t := by
  intro es
  induction es with
  | nil => intro s n; exact ⟨[], by simp [processElems]⟩
  | cons e tl ih =>
    intro s n
    by_cases h1 : cfg.limit ≤ s.posts.length
    · exact ⟨[], by simp [processElems, if_pos h1]⟩
    · cases hm : e.mid with
      | none => simp only [processElems, hm, if_neg h1]; exact ih s n
      | some m =>
        simp only [processElems, hm, if_neg h1]
        by_cases h2 : m = "" ∨ m ∈ s.seen
        · rw [if_pos h2]; exact ih s n
        · rw [if_neg h2]
          by_cases h3 : is_date_in_range cfg e = false ∧ cfg.startDate.isSome
          · rw [if_pos h3]
            by_cases h4 : stopTrig cfg e = true
            · rw [if_pos h4]; exact ih _ n
            · rw [if_neg h4]; exact ih _ n
          · rw [if_neg h3]
            obtain ⟨t, ht⟩ := ih { s with seen := m :: s.seen, posts := s.posts ++ [extract_post_data e] } (n + 1)
            exact ⟨[extract_post_data e] ++ t, by rw [ht, List.append_assoc]⟩

theorem processElems_posts_of_limit (cfg : Config) (es : List Element) (s : EngState)
    (n : Nat) : cfg.limit ≤ s.posts.length → (processElems cfg s n es).1.posts = s.posts := by
  intro h
  cases es with
  | nil => simp [processElems]
  | cons e tl => simp [processElems, if_pos h]

theorem processElems_length_le (cfg : Config) :
    ∀ (es : List Element) (s : EngState) (n : Nat),
      s.posts.length ≤ cfg.limit → (processElems cfg s n es).1.posts.length ≤ cfg.limit := by
  intro es
  induction es with
  | nil => intro s n h; simpa [processElems] using h
  | cons e tl ih =>
    intro s n h
    by_cases h1 : cfg.limit ≤ s.posts.length
    · simpa [processElems, if_pos h1] using h
    · cases hm : e.mid with
      | none => simp only [processElems, hm, if_neg h1]; exact ih s n h
      | some m =>
        simp only [processElems, hm, if_neg h1]
        by_cases h2 : m = "" ∨ m ∈ s.seen
        · rw [if_pos h2]; exact ih s n h
        · rw [if_neg h2]
          by_cases h3 : is_date_in_range cfg e = false ∧ cfg.startDate.isSome
          · rw [if_pos h3]
            by_cases h4 : stopTrig cfg e = true
            · rw [if_pos h4]; exact ih _ n h
            · rw [if_neg h4]; exact ih _ n h
          · rw [if_neg h3]
            refine ih _ (n + 1) ?_
            simp only [List.length_append, List.length_cons, List.length_nil]
            omega

theorem processElems_stopped (cfg : Config) :
    ∀ (es : List Element) (s : EngState) (n : Nat),
      (processElems cfg s n es).1.stopped = s.stopped := by
  intro es
  induction es with
  | nil => intro s n; simp [processElems]
  | cons e tl ih =>
    intro s n
    by_cases h1 : cfg.limit ≤ s.posts.length
    · simp [processElems, if_pos h1]
    · cases hm : e.mid with
      | none => simp only [processElems, hm, if_neg h1]; exact ih s n
      | some m =>
        simp only [processElems, hm, if_neg h1]
        by_cases h2 : m = "" ∨ m ∈ s.seen
        · rw [if_pos h2]; exact ih s n
        · rw [if_neg h2]
          by_cases h3 : is_date_in_range cfg e = false ∧ cfg.startDate.isSome
          · rw [if_pos h3]
            by_cases h4 : stopTrig cfg e = true
            · rw [if_pos h4]; exact ih _ n
            · rw [if_neg h4]; exact ih _ n
          · rw [if_neg h3]; exact ih _ (n + 1)

theorem processElems_counter (cfg : Config) :
    ∀ (es : List Element) (s : EngState) (n : Nat),
      (processElems cfg s n es).1.counter = s.counter ∨
        (processElems cfg s n es).1.counter = maxNoNewAttempts := by
  intro es
  induction es with
  | nil => intro s n; left; simp [processElems]
  | cons e tl ih =>
    intro s n
    by_cases h1 : cfg.limit ≤ s.posts.length
    · left; simp [processElems, if_pos h1]
    · cases hm : e.mid with
      | none => simp only [processElems, hm, if_neg h1]; exact ih s n
      | some m =>
        simp only [processElems, hm, if_neg h1]
        by_cases h2 : m = "" ∨ m ∈ s.seen
        · rw [if_pos h2]; exact ih s n
        · rw [if_neg h2]
          by_cases h3 : is_date_in_range cfg e = false ∧ cfg.startDate.isSome
          · rw [if_pos h3]
            by_cases h4 : stopTrig cfg e = true
            · rw [if_pos h4]
              rcases ih { s with seen := m :: s.seen, counter := maxNoNewAttempts } n with h | h
              · right; exact h
              · right; exact h
            · rw [if_neg h4]; exact ih _ n
          · rw [if_neg h3]; exact ih _ (n + 1)

theorem processElems_seen_mono (cfg : Config) :
    ∀ (es : List Element) (s : EngState) (n : Nat) (x : String),
      x ∈ s.seen → x ∈ (processElems cfg s n es).1.seen := by
  intro es
  induction es with
  | nil => intro s n x hx; simpa [processElems] using hx
  | cons e tl ih =>
    intro s n x hx
    by_cases h1 : cfg.limit ≤ s.posts.length
    · simpa [processElems, if_pos h1] using hx
    · cases hm : e.mid with
      | none => simp only [processElems, hm, if_neg h1]; exact ih s n x hx
      | some m =>
        simp only [processElems, hm, if_neg h1]
        by_cases h2 : m = "" ∨ m ∈ s.seen
        · rw [if_pos h2]; exact ih s n x hx
        · rw [if_neg h2]
          by_cases h3 : is_date_in_range cfg e = false ∧ cfg.startDate.isSome
          · rw [if_pos h3]
            by_cases h4 : stopTrig cfg e = true
            · rw [if_pos h4]; exact ih _ n x (by simp [hx])
            · rw [if_neg h4]; exact ih _ n x (by simp [hx])
          · rw [if_neg h3]; exact ih _ (n + 1) x (by simp [hx])

theorem Fields.find_append (f g : Fields) (k : String) :
    (f.append g).find k =
      (match f.find k with | some v => some v | Option.none => g.find k) := by
  induction f using Fields.ind with
  | hnil => simp [Fields.append, Fields.find]
  | hcons k0 v0 tl ih =>
    by_cases h : k0 = k <;> simp [Fields.append, Fields.find, h, ih]

theorem Fields.find_append_eq_none (f g : Fields) (k : String) :
    f.find k = Option.none → g.find k = Option.none →
    (f.append g).find k = Option.none := by
  intro h1 h2
  rw [Fields.find_append, h1]
  exact h2

theorem Fields.find_append_left (f g : Fields) (k : String) (v : PyVal) :
    f.find k = some v → (f.append g).find k = some v := by
  intro h1
  rw [Fields.find_append, h1]

theorem find_optField_ne (k k2 : String) (o : Option PyVal) (h : ¬k = k2) :
    (optField k o).find k2 = Option.none := by
  cases o <;> simp [optField, Fields.find, h]

theorem extract_success_error (e : Element) (h : e.extractFails = false) :
    (extract_post_data e).find "error" = Option.none := by
  simp only [extract_post_data, h, Bool.false_eq_true, if_false]
  refine Fields.find_append_eq_none _ _ _
    (Fields.find_append_eq_none _ _ _
      (Fields.find_append_eq_none _ _ _
        (Fields.find_append_eq_none _ _ _
          (Fields.find_append_eq_none _ _ _
            (Fields.find_append_eq_none _ _ _
              (Fields.find_append_eq_none _ _ _ ?_ ?_) ?_) ?_) ?_) ?_) ?_) ?_
  · simp [Fields.find]
  · cases htd : timeOrDateText e with
    | none => simp [Fields.find]
    | some txt =>
      cases hat : e.dateAttrTs with
      | none => simp [Fields.find]
      | some ts =>
        by_cases hts : ts = 0 <;>
          simp [hts, Fields.find, Fields.find_append, Fields.append]
  · exact find_optField_ne _ _ _ (by simp)
  · exact find_optField_ne _ _ _ (by simp)
  · cases hr : e.reactionsCount with
    | none => simp [Fields.find]
    | some n => by_cases hn : n = 0 <;> simp [hn, Fields.find]
  · exact find_optField_ne _ _ _ (by simp)
  · cases hme : e.media.isEmpty <;> simp [Fields.find]
  · exact find_optField_ne _ _ _ (by simp)

theorem extract_success_id (e : Element) (h : e.extractFails = false) :
    (extract_post_data e).find "id" = some (optStrVal e.mid) := by
  simp only [extract_post_data, h, Bool.false_eq_true, if_false]
  refine Fields.find_append_left _ _ _ _ ?_
  refine Fields.find_append_left _ _ _ _ ?_
  refine Fields.find_append_left _ _ _ _ ?_
  refine Fields.find_append_left _ _ _ _ ?_
  refine Fields.find_append_left _ _ _ _ ?_
  refine Fields.find_append_left _ _ _ _ ?_
  refine Fields.find_append_left _ _ _ _ ?_
  simp [Fields.find]

theorem extract_fail_eq (e : Element) (h : e.extractFails = true) :
    extract_post_data e =
      .cons "id" (.str "unknown") (.cons "error" (.str e.errMsg) .nil) := by
  simp [extract_post_data, h]

theorem processElems_inv (cfg : Config) :
    ∀ (es : List Element) (s : EngState) (n : Nat),
      engInv s → engInv (processElems cfg s n es).1 := by
  intro es
  induction es with
  | nil => intro s n h; simpa [processElems] using h
  | cons e tl ih =>
    intro s n hInv
    by_cases h1 : cfg.limit ≤ s.posts.length
    · simpa [processElems, if_pos h1] using hInv
    · cases hm : e.mid with
      | none => simp only [processElems, hm, if_neg h1]; exact ih s n hInv
      | some m =>
        simp only [processElems, hm, if_neg h1]
        by_cases h2 : m = "" ∨ m ∈ s.seen
        · rw [if_pos h2]; exact ih s n hInv
        · rw [if_neg h2]
          push_neg at h2
          by_cases h3 : is_date_in_range cfg e = false ∧ cfg.startDate.isSome
          · rw [if_pos h3]
            by_cases h4 : stopTrig cfg e = true
            · rw [if_pos h4]
              refine ih _ n ⟨?_, hInv.2⟩
              intro p hp hperr
              obtain ⟨m0, hid, hm0⟩ := hInv.1 p hp hperr
              exact ⟨m0, hid, List.mem_cons_of_mem _ hm0⟩
            · rw [if_neg h4]
              refine ih _ n ⟨?_, hInv.2⟩
              intro p hp hperr
              obtain ⟨m0, hid, hm0⟩ := hInv.1 p hp hperr
              exact ⟨m0, hid, List.mem_cons_of_mem _ hm0⟩
          · rw [if_neg h3]
            refine ih _ (n + 1) ⟨?_, ?_⟩
            · intro p hp hperr
              rcases List.mem_append.mp hp with hp1 | hp2
              · obtain ⟨m0, hid, hm0⟩ := hInv.1 p hp1 hperr
                exact ⟨m0, hid, List.mem_cons_of_mem _ hm0⟩
              · have hpe : p = extract_post_data e := by simpa using hp2
                subst hpe
                cases hef : e.extractFails with
                | true =>
                  rw [extract_fail_eq e hef] at hperr
                  simp [Fields.find] at hperr
                | false =>
                  refine ⟨m, ?_, List.mem_cons_self _ _⟩
                  rw [extract_success_id e hef, hm]
                  rfl
            · refine List.pairwise_append.mpr ⟨hInv.2, List.pairwise_singleton _ _, ?_⟩
              intro p hp1 q hq2 hperr hqerr
              have hq : q = extract_post_data e := by simpa using hq2
              subst hq
              cases hef : e.extractFails with
              | true =>
                rw [extract_fail_eq e hef] at hqerr
                simp [Fields.find] at hqerr
              | false =>
                obtain ⟨m0, hid0, hm0⟩ := hInv.1 p hp1 hperr
                rw [hid0, extract_success_id e hef, hm]
                intro hcontra
                have hm0m : m0 = m := by
                  have h5 := Option.some.inj hcontra
                  simpa [optStrVal] using h5
                subst hm0m
                exact h2.2 hm0

theorem stepRound_inv (cfg : Config) (s : EngState) (r : Round) :
    engInv s → engInv (stepRound cfg s r) := by
  intro h
  unfold stepRound
  by_cases h1 : s.stopped = true
  · rw [if_pos h1]; exact h
  · rw [if_neg h1]
    by_cases h2 : ¬(s.posts.length < cfg.limit ∧ s.counter < maxNoNewAttempts)
    · rw [if_pos h2]; exact h
    · rw [if_neg h2]
      by_cases h3 : r.elements.isEmpty = true
      · rw [if_pos h3]; exact h
      · rw [if_neg h3]
        have hp := processElems_inv cfg r.elements s 0 h
        by_cases h4 : cfg.limit ≤ (processElems cfg s 0 r.elements).1.posts.length ∨
            maxNoNewAttempts ≤ (processElems cfg s 0 r.elements).1.counter
        · rw [if_pos h4]; exact hp
        · rw [if_neg h4]
          by_cases h5 : r.atTop = true
          · rw [if_pos h5]; exact hp
          · rw [if_neg h5]
            by_cases h6 : (processElems cfg s 0 r.elements).2 = 0 ∨ r.scrollChanged = false
            · rw [if_pos h6]; exact hp
            · rw [if_neg h6]; exact hp

theorem runEngine_inv (cfg : Config) (trace : List Round) :
    engInv (runEngine cfg trace) := by
  have hgen : ∀ (rs : List Round) (s : EngState), engInv s →
      engInv (rs.foldl (stepRound cfg) s) := by
    intro rs
    induction rs with
    | nil => intro s h; exact h
    | cons r rest ih => intro s h; exact ih _ (stepRound_inv cfg s r h)
  exact hgen trace initState ⟨by simp [initState], by simp [initState]⟩

/-- C1 (amended): within one `_get_posts` run, the identifiers of the
records collected without an extraction error are pairwise distinct.  The
original claim (all identifiers pairwise distinct) fails because
extraction-failure placeholders all carry the identifier `"unknown"` and
are each appended; the counterexample exhibits two such records. -/
theorem claim1_uniqueness_amended (cfg : Config) (trace : List Round) :
    (runEngine cfg trace).posts.Pairwise (fun p q =>
      p.find "error" = Option.none → q.find "error" = Option.none →
      p.find "id" ≠ q.find "id") :=
  (runEngine_inv cfg trace).2

/-- C1 counterexample: a round rendering two elements whose extraction
fails yields two collected records that share the identifier
`"unknown"`, so identifiers of collected records are not pairwise
distinct as the claim states. -/
theorem claim1_counterexample :
    ¬(runEngine (plainCfg 5) [dupRound]).posts.Pairwise (fun p q =>
        p.find "id" ≠ q.find "id") := by
  intro hpw
  have hposts : (runEngine (plainCfg 5) [dupRound]).posts =
      [Fields.cons "id" (.str "unknown") (.cons "error" (.str "boom1") .nil),
       Fields.cons "id" (.str "unknown") (.cons "error" (.str "boom2") .nil)] := rfl
  rw [hposts] at hpw
  have h1 := (List.pairwise_cons.mp hpw).1
    (Fields.cons "id" (.str "unknown") (.cons "error" (.str "boom2") .nil)) (by simp)
  exact h1 rfl

theorem stepRound_length_le (cfg : Config) (s : EngState) (r : Round) :
    s.posts.length ≤ cfg.limit → (stepRound cfg s r).posts.length ≤ cfg.limit := by
  intro h
  unfold stepRound
  by_cases h1 : s.stopped = true
  · rw [if_pos h1]; exact h
  · rw [if_neg h1]
    by_cases h2 : ¬(s.posts.length < cfg.limit ∧ s.counter < maxNoNewAttempts)
    · rw [if_pos h2]; exact h
    · rw [if_neg h2]
      by_cases h3 : r.elements.isEmpty = true
      · rw [if_pos h3]; exact h
      · rw [if_neg h3]
        have hp := processElems_length_le cfg r.elements s 0 h
        by_cases h4 : cfg.limit ≤ (processElems cfg s 0 r.elements).1.posts.length ∨
            maxNoNewAttempts ≤ (processElems cfg s 0 r.elements).1.counter
        · rw [if_pos h4]; exact hp
        · rw [if_neg h4]
          by_cases h5 : r.atTop = true
          · rw [if_pos h5]; exact hp
          · rw [if_neg h5]
            by_cases h6 : (processElems cfg s 0 r.elements).2 = 0 ∨ r.scrollChanged = false
            · rw [if_pos h6]; exact hp
            · rw [if_neg h6]; exact hp

/-- C2: the number of collected records never exceeds the configured
limit: the bound holds after any run (hence at every point between
rounds, since every prefix of a trace is a trace), and within a round any
element reached once the limit has been attained appends nothing. -/
theorem claim2_limit_respected (cfg : Config) (trace : List Round) :
    (runEngine cfg trace).posts.length ≤ cfg.limit ∧
    (∀ (s : EngState) (n : Nat) (es : List Element),
      cfg.limit ≤ s.posts.length → (processElems cfg s n es).1.posts = s.posts) := by
  constructor
  · have hgen : ∀ (rs : List Round) (s : EngState), s.posts.length ≤ cfg.limit →
        (rs.foldl (stepRound cfg) s).posts.length ≤ cfg.limit := by
      intro rs
      induction rs with
      | nil => intro s h; exact h
      | cons r rest ih => intro s h; exact ih _ (stepRound_length_le cfg s r h)
    exact hgen trace initState (by simp [initState])
  · intro s n es h
    exact processElems_posts_of_limit cfg es s n h

/-- Witness for C2, applying the theorem at a concrete configuration,
trace and saturated state. -/
theorem claim2_limit_respected_witness :
    (runEngine (plainCfg 1) [dupRound]).posts.length ≤ 1 ∧
    (processElems (plainCfg 0) initState 0 [okElemA]).1.posts = [] :=
  ⟨(claim2_limit_respected (plainCfg 1) [dupRound]).1,
   (claim2_limit_respected (plainCfg 0) []).2 initState 0 [okElemA] (by decide)⟩

/-- C3: an element whose whole-record extraction fails yields exactly the
placeholder `{"id": "unknown", "error": str(e)}` with a non-empty error
field (provided the exception text is non-empty), and if the element
reaches extraction (room under the limit, a fresh truthy identifier, and
no active date exclusion) the engine appends that placeholder to the
output instead of discarding it. -/
theorem claim3_placeholder (cfg : Config) (s : EngState) (n : Nat) (e : Element)
    (es : List Element) (m : String)
    (hlim : s.posts.length < cfg.limit) (hm : e.mid = some m) (hm0 : ¬m = "")
    (hseen : m ∉ s.seen)
    (hdate : is_date_in_range cfg e = true ∨ cfg.startDate = Option.none)
    (hfail : e.extractFails = true) (hmsg : ¬e.errMsg = "") :
    extract_post_data e =
      .cons "id" (.str "unknown") (.cons "error" (.str e.errMsg) .nil) ∧
    (extract_post_data e).find "error" = some (.str e.errMsg) ∧
    ¬(extract_post_data e).find "error" = some (.str "") ∧
    (Fields.cons "id" (.str "unknown") (.cons "error" (.str e.errMsg) .nil)) ∈
      (processElems cfg s n (e :: es)).1.posts := by
  refine ⟨extract_fail_eq e hfail, ?_, ?_, ?_⟩
  · rw [extract_fail_eq e hfail]; simp [Fields.find]
  · rw [extract_fail_eq e hfail]
    simp only [Fields.find]
    intro hcontra
    have h5 := Option.some.inj (by simpa using hcontra)
    exact hmsg (by simpa [optStrVal] using h5)
  · have hnl : ¬cfg.limit ≤ s.posts.length := by omega
    simp only [processElems, hm, if_neg hnl]
    rw [if_neg (by rintro (h | h); exact hm0 h; exact hseen h)]
    rw [if_neg ?_]
    · obtain ⟨t, ht⟩ := processElems_posts_append cfg es
        { s with seen := m :: s.seen, posts := s.posts ++ [extract_post_data e] } (n + 1)
      rw [ht]
      rw [extract_fail_eq e hfail]
      simp
    · rintro ⟨hr, hsd⟩
      rcases hdate with hd | hd
      · rw [hd] at hr; exact Bool.true_eq_false.mp hr
      · rw [hd] at hsd; simp at hsd

/-- Witness for C3 at a concrete failing element. -/
theorem claim3_placeholder_witness :
    (Fields.cons "id" (.str "unknown") (.cons "error" (.str "boom1") .nil)) ∈
      (processElems (plainCfg 5) initState 0 [failElemA]).1.posts :=
  (claim3_placeholder (plainCfg 5) initState 0 failElemA [] "a" (by decide) rfl
    (by decide) (by simp [initState]) (Or.inr rfl) rfl (by decide)).2.2.2

/-- C4 counterexample: a round that collects one new record but whose
scroll position does not change increments the idle counter (to 1),
whereas the claim requires it to be reset to 0: the source increments on
`new_posts_in_batch == 0 OR not scroll_changed`, not on the claimed
conjunction. -/
theorem claim4_counterexample :
    (processElems (plainCfg 5) initState 0 noScrollRound.elements).2 = 1 ∧
    noScrollRound.scrollChanged = false ∧
    (stepRound (plainCfg 5) initState noScrollRound).counter = 1 ∧
    (stepRound (plainCfg 5) initState noScrollRound).counter ≠ 0 := by
  refine ⟨rfl, rfl, rfl, by decide⟩

/-- C4 (amended): in a round that runs to the idle-tracking update (the
loop condition held, elements were rendered, and neither the limit break,
the counter break nor the top-of-history break fired), the counter is
incremented exactly when the round collected zero new records OR the
scroll position did not change, and reset to zero otherwise. -/
theorem claim4_idle_update_amended (cfg : Config) (s : EngState) (r : Round)
    (hstop : s.stopped = false)
    (hguard : s.posts.length < cfg.limit ∧ s.counter < maxNoNewAttempts)
    (hne : ¬r.elements.isEmpty = true)
    (hlen : (processElems cfg s 0 r.elements).1.posts.length < cfg.limit)
    (hcnt : (processElems cfg s 0 r.elements).1.counter < maxNoNewAttempts)
    (htop : r.atTop = false) :
    (stepRound cfg s r).counter =
      if (processElems cfg s 0 r.elements).2 = 0 ∨ r.scrollChanged = false
      then (processElems cfg s 0 r.elements).1.counter + 1 else 0 := by
  unfold stepRound
  rw [if_neg (by simp [hstop]), if_neg (by intro hc; exact hc hguard), if_neg hne,
    if_neg (by omega), if_neg (by simp [htop])]
  by_cases h6 : (processElems cfg s 0 r.elements).2 = 0 ∨ r.scrollChanged = false
  · rw [if_pos h6, if_pos h6]
  · rw [if_neg h6, if_neg h6]

/-- Witness for C4 (amended) at a concrete round with new records and a
moving scroll position. -/
theorem claim4_idle_update_amended_witness :
    (stepRound (plainCfg 5) initState dupRound).counter = 0 := by
  have h := claim4_idle_update_amended (plainCfg 5) initState dupRound rfl
    (by decide) (by simp [dupRound]) (by decide) (by decide) rfl
  simpa using h

theorem stepRound_of_stopped (cfg : Config) (s : EngState) (r : Round)
    (h : s.stopped = true) : stepRound cfg s r = s := by
  unfold stepRound
  rw [if_pos h]

theorem foldl_of_stopped (cfg : Config) :
    ∀ (rs : List Round) (s : EngState), s.stopped = true →
      rs.foldl (stepRound cfg) s = s := by
  intro rs
  induction rs with
  | nil => intro s _; rfl
  | cons r rest ih =>
    intro s h
    simp only [List.foldl, stepRound_of_stopped cfg s r h]
    exact ih s h

theorem stepRound_idle (cfg : Config) (s : EngState) (r : Round)
    (hn : newCountOf cfg s r = 0) :
    (stepRound cfg s r).stopped = true ∨
    ((stepRound cfg s r).counter = s.counter + 1 ∧
      (stepRound cfg s r).stopped = s.stopped) := by
  unfold stepRound
  by_cases h1 : s.stopped = true
  · rw [if_pos h1]; left; exact h1
  · rw [if_neg h1]
    by_cases h2 : ¬(s.posts.length < cfg.limit ∧ s.counter < maxNoNewAttempts)
    · rw [if_pos h2]; left; rfl
    · rw [if_neg h2]
      by_cases h3 : r.elements.isEmpty = true
      · rw [if_pos h3]; right; exact ⟨rfl, rfl⟩
      · rw [if_neg h3]
        by_cases h4 : cfg.limit ≤ (processElems cfg s 0 r.elements).1.posts.length ∨
            maxNoNewAttempts ≤ (processElems cfg s 0 r.elements).1.counter
        · rw [if_pos h4]; left; rfl
        · rw [if_neg h4]
          by_cases h5 : r.atTop = true
          · rw [if_pos h5]; left; rfl
          · rw [if_neg h5]
            have hn2 : (processElems cfg s 0 r.elements).2 = 0 := hn
            rw [if_pos (Or.inl hn2)]
            right
            push_neg at h2 h4
            constructor
            · rcases processElems_counter cfg r.elements s 0 with hc | hc
              · simp [hc]
              · exfalso; omega
            · simp [processElems_stopped cfg r.elements s 0]

theorem idle_chain_growth (cfg : Config) :
    ∀ (rs : List Round) (s : EngState), idleChainB cfg s rs = true →
      (rs.foldl (stepRound cfg) s).stopped = true ∨
      s.counter + rs.length ≤ (rs.foldl (stepRound cfg) s).counter := by
  intro rs
  induction rs with
  | nil => intro s _; right; simp
  | cons r rest ih =>
    intro s h
    simp only [idleChainB, Bool.and_eq_true, beq_iff_eq, Bool.not_eq_true'] at h
    obtain ⟨⟨hn, _⟩, hrest⟩ := h
    rcases stepRound_idle cfg s r hn with hstop | ⟨hcnt, _⟩
    · left
      simp only [List.foldl]
      rw [foldl_of_stopped cfg rest _ hstop]
      exact hstop
    · simp only [List.foldl, List.length_cons]
      rcases ih (stepRound cfg s r) hrest with h | h
      · left; exact h
      · right; omega

/-- C5: the loop of `_get_posts` terminates within `max_no_new_attempts`
(five) consecutive rounds that collect zero new records and leave the
scroll position unchanged: after such a chain the while-condition is
false — the state is stopped, or the limit is met, or the idle counter
has reached its bound — regardless of any other page behaviour. -/
theorem claim5_idle_termination (cfg : Config) (s : EngState) (rs : List Round)
    (hchain : idleChainB cfg s rs = true)
    (hlen : maxNoNewAttempts ≤ rs.length) :
    runningGuard cfg (rs.foldl (stepRound cfg) s) = false := by
  rcases idle_chain_growth cfg rs s hchain with h | h
  · simp [runningGuard, h]
  · have hge : maxNoNewAttempts ≤ (rs.foldl (stepRound cfg) s).counter := by omega
    have hlt : ¬(rs.foldl (stepRound cfg) s).counter < maxNoNewAttempts := by omega
    simp [runningGuard, hlt]

/-- Witness for C5: five idle rounds from the initial state exhaust the
counter and falsify the loop condition. -/
theorem claim5_idle_termination_witness :
    runningGuard (plainCfg 3)
      ((List.replicate 5 idleRound).foldl (stepRound (plainCfg 3)) initState) = false :=
  claim5_idle_termination (plainCfg 3) initState (List.replicate 5 idleRound)
    (by decide) (by decide)

/-- C6 (amended): when a start date is configured and an element with a
fresh truthy identifier is out of range, the engine records the
identifier, skips the element without extracting it, and continues with
the remaining elements of the batch (no immediate break) — but it sets
the force-stop (counter := `max_no_new_attempts`) exactly when the
element also carries a `.time`/`.date` descendant AND a truthy
`[data-timestamp]` attribute whose date is strictly before the start
date.  An element whose date resolves before the start only through its
text label is skipped without any stop signal (see the
counterexample). -/
theorem claim6_stop_amended (cfg : Config) (s : EngState) (n : Nat) (e : Element)
    (es : List Element) (m : String) (sd : Date)
    (hlim : s.posts.length < cfg.limit) (hm : e.mid = some m) (hm0 : ¬m = "")
    (hseen : m ∉ s.seen) (hsd : cfg.startDate = some sd)
    (hrange : is_date_in_range cfg e = false) :
    processElems cfg s n (e :: es) =
      processElems cfg
        (if stopTrig cfg e then { s with seen := m :: s.seen, counter := maxNoNewAttempts }
         else { s with seen := m :: s.seen }) n es ∧
    (stopTrig cfg e = true ↔ (timeOrDateText e).isSome = true ∧
      ∃ ts, e.descTs = some ts ∧ ts ≠ 0 ∧
        dateLtb (tsToDateTime ts).date sd = true) := by
  constructor
  · have hnl : ¬cfg.limit ≤ s.posts.length := by omega
    simp only [processElems, hm, if_neg hnl]
    rw [if_neg (by rintro (h | h); exact hm0 h; exact hseen h)]
    rw [if_pos ⟨hrange, by simp [hsd]⟩]
  · unfold stopTrig
    cases htd : timeOrDateText e with
    | none => simp
    | some txt =>
      cases hts : e.descTs with
      | none => simp
      | some ts =>
        by_cases h0 : ts = 0
        · simp [h0]
        · simp only [h0, if_true, ne_eq, not_false_iff, if_pos, hsd, Option.elim,
            Option.isSome_some, true_and]
          constructor
          · intro hlt
            exact ⟨ts, rfl, h0, hlt⟩
          · rintro ⟨ts2, hts2, _, hlt⟩
            have : ts2 = ts := (Option.some.inj hts2).symm
            subst this
            exact hlt

/-- Witness for C6 (amended): an element with a timestamp attribute dated
before the start date triggers the force-stop, is skipped, and the batch
continues. -/
theorem claim6_stop_amended_witness :
    stopTrig startCfg oldTsElem = true ∧
    processElems startCfg initState 0 [oldTsElem] =
      processElems startCfg
        { initState with seen := "ts" :: initState.seen, counter := maxNoNewAttempts }
        0 [] := by
  have h := claim6_stop_amended startCfg initState 0 oldTsElem [] "ts" ⟨2024, 1, 10⟩
    (by decide) rfl (by decide) (by simp [initState]) rfl (by decide)
  refine ⟨by decide, ?_⟩
  rw [h.1]
  rfl

/-- C6 counterexample: the element dated `"yesterday"` (resolved to
2024-01-09, strictly before the start date 2024-01-10) carries no
timestamp attribute, so the engine skips it WITHOUT setting its stop
signal: the counter stays 0 and the loop condition still holds after the
round, contradicting the claim that every element dated before
`range.start` sets the stop signal. -/
theorem claim6_counterexample :
    resolveMsgDateFrom startCfg.now oldTextElem.descTs "yesterday" =
      some ⟨⟨2024, 1, 9⟩, 3600⟩ ∧
    dateLtb ⟨2024, 1, 9⟩ ⟨2024, 1, 10⟩ = true ∧
    is_date_in_range startCfg oldTextElem = false ∧
    stopTrig startCfg oldTextElem = false ∧
    (processElems startCfg initState 0 [oldTextElem]).1.counter = 0 ∧
    runningGuard startCfg (stepRound startCfg initState
      { elements := [oldTextElem], atTop := false, scrollChanged := true }) = true := by
  refine ⟨by decide, rfl, by decide, rfl, rfl, by decide⟩

/-- C7 (amended): the engine has no escalation scroll: every scroll
command any round ever issues is the same fixed 800-pixel upward step
(ten per round), whatever the idle counter's value. -/
theorem claim7_uniform_scroll_amended (cfg : Config) (s : EngState) (r : Round)
    (c : ScrollCmd) (hc : c ∈ roundCmds cfg s r) : c = ScrollCmd.upBy 800 := by
  simp only [roundCmds] at hc
  split_ifs at hc
  all_goals
    first
      | exact absurd hc (List.not_mem_nil c)
      | exact List.eq_of_mem_replicate hc

/-- Witness for C7 (amended) at a concrete round that reaches the scroll
phase. -/
theorem claim7_uniform_scroll_amended_witness :
    ScrollCmd.upBy 800 ∈ roundCmds (plainCfg 5) initState idleRound ∧
    ScrollCmd.upBy 800 = ScrollCmd.upBy 800 :=
  ⟨by decide,
   claim7_uniform_scroll_amended (plainCfg 5) initState idleRound
     (ScrollCmd.upBy 800) (by decide)⟩

/-- C7 counterexample: after three consecutive idle rounds the counter
has crossed the claimed escalation threshold of 3, yet the next round
issues exactly the usual ten fixed 800-pixel scroll steps — there is no
larger corrective jump anywhere in `_get_posts`. -/
theorem claim7_counterexample :
    ((List.replicate 3 idleRound).foldl (stepRound (plainCfg 5)) initState).counter = 3 ∧
    roundCmds (plainCfg 5)
      ((List.replicate 3 idleRound).foldl (stepRound (plainCfg 5)) initState) idleRound =
      List.replicate 10 (ScrollCmd.upBy 800) :=
  ⟨rfl, rfl⟩

/-- C8 (amended): `_get_channel_info` returns the
`{"title": "Unknown", "error": msg}` fallback exactly when an unexpected
exception escapes the unguarded tail of the method; a failure of the
title read itself is swallowed by `_get_channel_title` and stored as
`title = None` with no error field, while description and
subscriber-count read failures are simply omitted from the result and
never abort the read. -/
theorem claim8_metadata_amended (p : InfoPage) :
    (∀ msg, p.unexpected = some msg →
      get_channel_info p =
        .cons "title" (.str "Unknown") (.cons "error" (.str msg) .nil)) ∧
    (p.unexpected = Option.none →
      (get_channel_info p).find "title" = some (optStrVal (get_channel_title p)) ∧
      (get_channel_info p).find "error" = Option.none ∧
      (p.titleFails = true → (get_channel_info p).find "title" = some PyVal.none) ∧
      (p.descFails = true → (get_channel_info p).find "description" = Option.none) ∧
      (p.subsFails = true → (get_channel_info p).find "subscribers" = Option.none)) := by
  constructor
  · intro msg hmsg
    simp [get_channel_info, hmsg]
  · intro hu
    refine ⟨?_, ?_, ?_, ?_, ?_⟩ <;>
    · try intro hflag
      simp only [get_channel_info, hu]
      by_cases hdf : p.descFails = true <;>
      by_cases hsf : p.subsFails = true <;>
      by_cases hurl : strContains p.pageUrl "@" = true <;>
      rcases hdt : p.descText with _ | dt <;>
      rcases hst : p.subsText with _ | st <;>
      simp_all [Fields.upsert, Fields.find, get_channel_title, optStrVal] <;>
      (try rcases findMagnitude st with _ | mg) <;>
      simp_all [Fields.upsert, Fields.find]

/-- Witness for C8 (amended): the fallback arm at a concrete unexpected
failure, and the title-read failure arm at a concrete page. -/
theorem claim8_metadata_amended_witness :
    get_channel_info { titleFailPage with unexpected := some "boom" } =
      Fields.cons "title" (.str "Unknown") (Fields.cons "error" (.str "boom") .nil) ∧
    (get_channel_info titleFailPage).find "title" = some PyVal.none :=
  ⟨(claim8_metadata_amended { titleFailPage with unexpected := some "boom" }).1 "boom" rfl,
   ((claim8_metadata_amended titleFailPage).2 rfl).2.2.1 rfl⟩

/-- C8 counterexample: on a page whose title read fails (and nothing
else is present), `_get_channel_info` returns `{"title": None}` — the
title is not `"Unknown"` and no `error` field is present, contradicting
the claimed `{title: "Unknown", error: msg}` result for title-read
failures. -/
theorem claim8_counterexample :
    get_channel_info titleFailPage = Fields.cons "title" PyVal.none Fields.nil ∧
    (get_channel_info titleFailPage).find "title" ≠ some (PyVal.str "Unknown") ∧
    (get_channel_info titleFailPage).find "error" = Option.none := by
  refine ⟨rfl, ?_, rfl⟩
  intro h
  exact PyVal.noConfusion (Option.some.inj h)
